import Mathlib

set_option maxHeartbeats 1000000

/-!
Shallow embedding of the `recorder` package (recorder.go): an HTTP
record/replay transport.  Go maps with string keys are modelled as
association lists in insertion order with unique keys; Go pointers that may
be nil (`Entry.Request`, `Entry.Response`) are modelled as `Option`; Go
panics and nil-pointer dereferences are modelled as `Except.error` /
`RTResult.panic`; the external YAML serializer and the live transport are
parameters of the model (they are external collaborators of the package).
The filesystem is reduced to the single backing file of one recorder
instance (`Option String`: `none` means the file does not exist).
-/

deriving instance DecidableEq for Except

namespace Recorder

/-- Go `map[string]string` (entry header maps), in insertion order. -/
abbrev HMap := List (String × String)

/-- Go `http.Header`, i.e. `map[string][]string`. -/
abbrev GoHeader := List (String × List String)

/-- Go `delete(m, k)` on a `map[string]string`. -/
def eraseKey (m : HMap) (k : String) : HMap :=
  m.filter (fun p => !(p.1 == k))

/-- The `flattenHeader` helper: keeps only the first value of each key
    (`out[k] = vv[0]`). -/
def flattenHeader (h : GoHeader) : HMap :=
  h.map (fun p => (p.1, p.2.headD ("")))

/-- Valid MIME header token bytes, as in Go `net/textproto`
    (letters, digits, and the characters of the token table). -/
def isTokenChar (c : Char) : Bool :=
  c.isAlphanum || c == '!' || c == '#' || c == '$' || c == '%' || c == '&' ||
  c == '\x27' || c == '*' || c == '+' || c == '-' || c == '.' || c == '^' ||
  c == '_' || c == '\x60' || c == '|' || c == '~'

/-- Upper-case the first letter and every letter following a dash,
    lower-case the rest, as in `textproto.CanonicalMIMEHeaderKey`. -/
def canonChars : Bool → List Char → List Char
  | _, [] => []
  | up, c :: rest => (if up then c.toUpper else c.toLower) :: canonChars (c == '-') rest

/-- Go `textproto.CanonicalMIMEHeaderKey`: keys containing an invalid
    byte are returned unchanged. -/
def canonicalKey (s : String) : String :=
  if s.data.all isTokenChar then String.mk (canonChars true s.data) else s

/-- Go `http.Header.Set`: canonicalises the key and replaces its value
    with a single-element slice. -/
def headerSet (h : GoHeader) (k v : String) : GoHeader :=
  let ck := canonicalKey k
  if h.any (fun p => p.1 == ck) then
    h.map (fun p => if p.1 == ck then (ck, [v]) else p)
  else h ++ [(ck, [v])]

/-- The `expandHeader` helper: builds an `http.Header` by `Set`-ting every
    recorded key/value pair. -/
def expandHeader (m : HMap) : GoHeader :=
  m.foldl (fun acc p => headerSet acc p.1 p.2) []

/-- A recorded outgoing request (`Request` in recorder.go). -/
structure Request where
  method : String
  url : String
  headers : HMap
  body : String
deriving DecidableEq, Repr
/-- A recorded incoming response (`Response` in recorder.go). -/
structure Response where
  statusCode : Int
  headers : HMap
  body : String
deriving DecidableEq, Repr
/-- One recorded request/response pair (`Entry` in recorder.go).  The Go
    fields are pointers and may be nil, hence `Option`. -/
structure Entry where
  request : Option Request
  response : Option Response
deriving DecidableEq, Repr
instance : Inhabited Entry := ⟨⟨none, none⟩⟩

/-- Go `Mode` is a plain `int` with four named constants. -/
abbrev Mode := Int

def Auto : Mode := 0

def ReplayOnly : Mode := 1

def Record : Mode := 2

def Passthrough : Mode := 3

/-- A filter mutates the entry in place; modelled as a function on entry
    values. -/
abbrev Filter := Entry → Entry

/-- Filter `RemoveRequestHeader`: deletes a request header (case-sensitive name).
    In Go a nil `Request` pointer would panic; filters only ever run on the
    freshly captured entry, whose pointers are non-nil. -/
def RemoveRequestHeader (name : String) : Filter :=
  fun e => { e with request := e.request.map (fun r => { r with headers := eraseKey r.headers name }) }

/-- Filter `RemoveResponseHeader`: deletes a response header (case-sensitive name). -/
def RemoveResponseHeader (name : String) : Filter :=
  fun e => { e with response := e.response.map (fun r => { r with headers := eraseKey r.headers name }) }

/-- Go `strings.EqualFold`, modelled by case folding both sides
    (character-wise, so that concrete instances evaluate). -/
def eqFold (a b : String) : Bool :=
  a.data.map Char.toLower == b.data.map Char.toLower

/-- Whether an entry matches a method and url the way `Recorder.Lookup`
    compares them.  A nil request never gets this far (the Go code panics
    first; see `lookupEntries`). -/
def matchesMU (m u : String) (e : Entry) : Bool :=
  match e.request with
  | none => false
  | some r => eqFold r.method m && eqFold r.url u

/-- The loop body of `Recorder.Lookup`: first entry whose method and URL
    both case-insensitively equal the arguments.  Dereferencing a nil
    `Request` pointer is a Go runtime panic, modelled as `Except.error`. -/
def lookupEntries (m u : String) : List Entry → Except String (Option Entry)
  | [] => Except.ok none
  | e :: rest =>
    match e.request with
    | none => Except.error ("runtime error: nil request in entry")
    | some r =>
      if eqFold r.method m && eqFold r.url u then Except.ok (some e)
      else lookupEntries m u rest

/-- The loop of `OncePerCall.Select`, with `i` the running index and `used`
    the set of already returned positions (Go `map[int]bool`, modelled as
    the list of indices set to true). -/
def selectFrom (used : List Nat) (method url : String) : Nat → List Entry → Except String (Option Entry × List Nat)
  | _, [] => Except.ok (none, used)
  | i, e :: rest =>
    match e.request with
    | none => Except.error ("runtime error: nil request in entry")
    | some r =>
      if eqFold r.method method then
        if eqFold r.url url then
          if used.contains i then selectFrom used method url (i + 1) rest
          else Except.ok (some e, i :: used)
        else selectFrom used method url (i + 1) rest
      else selectFrom used method url (i + 1) rest

/-- The incoming `*http.Request` as far as the recorder reads it: method,
    `URL.String()`, header map, and the (fully buffered) body. -/
structure HttpRequest where
  method : String
  url : String
  headers : GoHeader
  body : String
deriving DecidableEq, Repr
/-- What the live transport collaborator returns on success, with the body
    already buffered (`ioutil.ReadAll`); read/close failures are folded
    into the transport error, as both propagate verbatim and record
    nothing. -/
structure TranResponse where
  statusCode : Int
  header : GoHeader
  body : String
deriving DecidableEq, Repr
/-- Function `OncePerCall.Select` itself: scans the shared entry list from index 0. -/
def oncePerCallSelect (used : List Nat) (entries : List Entry) (req : HttpRequest) : Except String (Option Entry × List Nat) :=
  selectFrom used req.method req.url 0 entries

/-- The `*http.Response` the recorder hands back to its caller (both the
    replay branch and the post-filter reconstruction build exactly this
    shape from a `Response` record). -/
structure HttpResponse where
  statusCode : Int
  header : GoHeader
  body : String
  contentLength : Int
deriving DecidableEq, Repr

/-- Outcome of a `RoundTrip` call.  `noRequest` is `NoRequestError` carrying
    the original request; `err` is an ordinary error return (transport or
    I/O failure); `panic` is a Go panic. -/
inductive RTResult where
  | ok (resp : HttpResponse)
  | noRequest (req : HttpRequest)
  | err (msg : String)
  | panic (msg : String)
deriving DecidableEq, Repr
/-- Lines 152-157 and 217-222 of recorder.go: status code, expanded
    headers, stored body, and `int64(len(body))` (UTF-8 byte length). -/
def synthesize (r : Response) : HttpResponse :=
  { statusCode := r.statusCode
    header := expandHeader r.headers
    body := r.body
    contentLength := Int.ofNat r.body.utf8ByteSize }

/-- The `Request` record captured before the live call (lines 176-184:
    the second header loop rewrites the same first values written by
    `flattenHeader`). -/
def captureRequest (req : HttpRequest) : Request :=
  { method := req.method, url := req.url, headers := flattenHeader req.headers, body := req.body }

/-- The `Response` record captured after the live call. -/
def captureResponse (t : TranResponse) : Response :=
  { statusCode := t.statusCode, headers := flattenHeader t.header, body := t.body }

/-- The entry constructed at line 209, before filters run. -/
def mkEntry (req : HttpRequest) (t : TranResponse) : Entry :=
  { request := some (captureRequest req), response := some (captureResponse t) }

/-- The filter loop: filters applied strictly in registration order. -/
def applyFilters (fs : List Filter) (e : Entry) : Entry :=
  fs.foldl (fun acc f => f acc) e

/-- Go `bytes.Split(existing, []byte("\n---\n"))` specialised to the
    document marker: split at every leftmost non-overlapping occurrence,
    keeping empty pieces.  Written as structural recursion on the character
    list so that it evaluates. -/
def splitMarkerAux : List Char → List Char → List (List Char)
  | acc, '\x0a' :: '-' :: '-' :: '-' :: '\x0a' :: rest => acc.reverse :: splitMarkerAux [] rest
  | acc, c :: rest => splitMarkerAux (c :: acc) rest
  | acc, [] => [acc.reverse]

/-- The chunks of the backing file content. -/
def splitMarker (s : String) : List String :=
  (splitMarkerAux [] s.data).map (fun l => String.mk l)

/-- Splitting and unmarshalling the backing file (lines 110-117).  The Go
    loop appends each successfully parsed chunk to `r.entries` before
    examining the next one, and panics at the first malformed chunk; the
    already-appended prefix stays on the instance.  The first component is
    that prefix (the whole list when every chunk parses), the second is the
    panic message of the first malformed chunk, if any. -/
def parseChunks (u : String → Except String Entry) : List String → List Entry × Option String
  | [] => ([], none)
  | c :: rest =>
    match u c with
    | Except.error msg => ([], some (("unmarshal session: ") ++ msg))
    | Except.ok e =>
      (e :: (parseChunks u rest).1, (parseChunks u rest).2)

/-- Function `Recorder.loadFromDisk`: a no-op in Passthrough mode; a missing file is
    silently skipped (`err == nil` guard); otherwise the content is split
    on the document marker and every chunk unmarshalled, each parsed entry
    being appended before the next chunk is examined.  The result is the
    updated entry list — including the partial prefix appended before a
    malformed chunk, which persists on the instance past the panic — paired
    with the panic message, if any.  The `.yml` filename normalization is
    immaterial to the single-file model. -/
def loadFromDisk (u : String → Except String Entry) (mode : Mode) (disk : Option String) (entries : List Entry) : List Entry × Option String :=
  if mode = Passthrough then (entries, none)
  else
    match disk with
    | none => (entries, none)
    | some content =>
      (entries ++ (parseChunks u (splitMarker content)).1,
       (parseChunks u (splitMarker content)).2)

/-- The disk write of lines 227-262: truncate/create on write index 0,
    append otherwise (opening a missing file without `O_CREATE` fails);
    separator before every document after the first, then the metadata
    comments and the serialized entry.  `metaLines` stands for the
    timestamp/roundtrip comment lines (environment supplied). -/
def writeEntry (marshal : Entry → String) (metaLines : Nat → String) (index : Nat) (e : Entry) (disk : Option String) : Except String String :=
  let doc := (if index > 0 then ("\n---\n\n") else ("")) ++
    ("# request ") ++ toString index ++ ("\n") ++ metaLines index ++ marshal e
  if index = 0 then Except.ok doc
  else
    match disk with
    | none => Except.error ("open: no such file or directory")
    | some s => Except.ok (s ++ doc)

/-- Construction-time configuration of one recorder instance.  `σ` is the
    internal state type of the configured selector (selectors are stateful
    in Go; `OncePerCall` uses `List Nat`).  The live transport is indexed
    by the number of earlier live calls so that call sequences can be
    modelled. -/
structure Config (σ : Type) where
  mode : Mode
  filters : List Filter
  transport : Nat → HttpRequest → Except String TranResponse
  selector : Option (σ → List Entry → HttpRequest → Except String (Option Entry × σ))
  unmarshal : String → Except String Entry
  marshal : Entry → String
  metaLines : Nat → String

/-- Mutable state of one recorder instance.  `liveCalls` and `liveOks`
    are ghost instrumentation counting transport invocations and successful
    transport invocations; they affect no behavior. -/
structure RecState (σ : Type) where
  entries : List Entry
  index : Nat
  loaded : Bool
  selSt : σ
  disk : Option String
  liveCalls : Nat
  liveOks : Nat

/-- The selection step of the replay branch (lines 143-149): the configured
    selector, or the default `Lookup` rule when none is configured. -/
def selectStep {σ : Type} (cfg : Config σ) (st : RecState σ) (req : HttpRequest) : Except String (Option Entry × σ) :=
  match cfg.selector with
  | some sel => sel st.selSt st.entries req
  | none => (lookupEntries req.method req.url st.entries).map (fun o => (o, st.selSt))

/-- Lines 164-264: buffer the body, perform the live call, capture the
    entry, run the filters, reconstruct the outward response from the
    filtered records, append in memory, and persist in Auto/Record mode. -/
def liveCall {σ : Type} (cfg : Config σ) (st : RecState σ) (req : HttpRequest) : RTResult × RecState σ :=
  match cfg.transport st.liveCalls req with
  | Except.error msg => (RTResult.err msg, { st with liveCalls := st.liveCalls + 1 })
  | Except.ok t =>
    let e := applyFilters cfg.filters (mkEntry req t)
    let outResp := synthesize (e.response.getD (captureResponse t))
    let st2 := { st with
      liveCalls := st.liveCalls + 1
      liveOks := st.liveOks + 1
      entries := st.entries ++ [e] }
    if cfg.mode = Auto ∨ cfg.mode = Record then
      match writeEntry cfg.marshal cfg.metaLines st2.index e st2.disk with
      | Except.error m => (RTResult.err m, st2)
      | Except.ok content =>
        (RTResult.ok outResp, { st2 with disk := some content, index := st2.index + 1 })
    else (RTResult.ok outResp, st2)

/-- Function `Recorder.RoundTrip`.  The mode guard is Go `r.Mode > Passthrough`
    (negative mode values pass it).  The `sync.Once` guard is the `loaded`
    flag; a load panic still marks the once as done, and the entries the
    loader appended before panicking stay on the instance. -/
def roundTrip {σ : Type} (cfg : Config σ) (st : RecState σ) (req : HttpRequest) : RTResult × RecState σ :=
  if Passthrough < cfg.mode then (RTResult.panic ("Unsupported mode"), st)
  else
    match (if st.loaded then (st.entries, (none : Option String))
           else loadFromDisk cfg.unmarshal cfg.mode st.disk st.entries) with
    | (es, some m) => (RTResult.panic m, { st with entries := es, loaded := true })
    | (es, none) =>
      let st1 := { st with entries := es, loaded := true }
      if cfg.mode = Auto ∨ cfg.mode = ReplayOnly then
        match selectStep cfg st1 req with
        | Except.error m => (RTResult.panic m, st1)
        | Except.ok (some e, s2) =>
          let st2 := { st1 with selSt := s2 }
          match e.response with
          | none => (RTResult.panic ("runtime error: nil response in entry"), st2)
          | some resp => (RTResult.ok (synthesize resp), st2)
        | Except.ok (none, s2) =>
          let st2 := { st1 with selSt := s2 }
          if cfg.mode = ReplayOnly then (RTResult.noRequest req, st2)
          else liveCall cfg st2 req
      else liveCall cfg st1 req

/-- Function `Recorder.Lookup`: triggers the one-time load --- whose panic,
    if any, propagates with the partially appended entries kept on the
    instance --- then scans with the default matching rule.  The configured
    selector is never consulted. -/
def lookupOp {σ : Type} (cfg : Config σ) (st : RecState σ) (method url : String) : Except String (Option Entry) × RecState σ :=
  match (if st.loaded then (st.entries, (none : Option String))
         else loadFromDisk cfg.unmarshal cfg.mode st.disk st.entries) with
  | (es, some m) => (Except.error m, { st with entries := es, loaded := true })
  | (es, none) => (lookupEntries method url es, { st with entries := es, loaded := true })

/-- A sequence of `RoundTrip` calls against one instance (results
    discarded; the state accumulates). -/
def runSeq {σ : Type} (cfg : Config σ) : RecState σ → List HttpRequest → RecState σ
  | st, [] => st
  | st, r :: rs => runSeq cfg (roundTrip cfg st r).2 rs

/-- The (method, url) key of an entry, the only part of an entry the default
    matching rule reads. -/
def reqKey (e : Entry) : Option (String × String) :=
  e.request.map (fun r => (r.method, r.url))

/-- A filter that does not alter the recorded request method or URL (true of
    the provided header-removal filters). -/
def KeyPreserving (f : Filter) : Prop := ∀ e, reqKey (f e) = reqKey e

/-! ### Supporting lemmas for `OncePerCall.Select` -/

/-- Positions (with their entries) that match the key and have not been
    consumed yet, in scan order from index `n`. -/
def freshList (used : List Nat) (method url : String) : Nat → List Entry → List (Nat × Entry)
  | _, [] => []
  | n, e :: rest =>
    if matchesMU method url e && !(used.contains n) then
      (n, e) :: freshList used method url (n + 1) rest
    else freshList used method url (n + 1) rest

/-- State of a fresh `OncePerCall` selector (Go zero value, empty used map)
    after `k` `Select` calls for the same request against a fixed list. -/
def iterUsed (entries : List Entry) (req : HttpRequest) : Nat → List Nat
  | 0 => []
  | k + 1 =>
    match oncePerCallSelect (iterUsed entries req k) entries req with
    | Except.ok (_, u2) => u2
    | Except.error _ => iterUsed entries req k

/-- Invariant carried across a sequence of identical Auto-mode calls:
    either no successful live call has happened yet, or exactly one has and
    the in-memory list now answers the key. -/
def AutoInv {σ : Type} (base : Nat) (m u : String) (st : RecState σ) : Prop :=
  st.liveOks = base ∨
    (st.liveOks = base + 1 ∧ st.loaded = true ∧
      ∃ e, lookupEntries m u st.entries = Except.ok (some e))

/-- The spec invariant on a single entry: request and response both
    present (non-nil pointers in Go). -/
abbrev EntryFull (e : Entry) : Prop := e.request.isSome = true ∧ e.response.isSome = true

/-- A filter that keeps request and response present (true of the
    provided header-removal filters). -/
def PresencePreserving (f : Filter) : Prop :=
  ∀ e, EntryFull e → EntryFull (f e)

/-! ### Concrete instances used by witnesses and counterexamples -/

def wReq : HttpRequest :=
  { method := ("GET"), url := ("http://x/1"), headers := [], body := ("") }

def wResp : TranResponse :=
  { statusCode := 200, header := [], body := ("hello") }

def wEntry : Entry :=
  { request := some { method := ("GET"), url := ("http://x/1"), headers := [], body := ("") }
    response := some { statusCode := 200, headers := [], body := ("hello") } }

def wEntry2 : Entry :=
  { request := some { method := ("GET"), url := ("http://x/1"), headers := [], body := ("") }
    response := some { statusCode := 200, headers := [], body := ("world") } }

def wCfg (mode : Mode) : Config Unit :=
  { mode := mode
    filters := []
    transport := fun _ _ => Except.ok wResp
    selector := none
    unmarshal := fun _ => Except.error ("unused")
    marshal := fun _ => ("entry")
    metaLines := fun _ => ("") }

def wState : RecState Unit :=
  { entries := [], index := 0, loaded := true, selSt := (), disk := none
    liveCalls := 0, liveOks := 0 }

def wStateE : RecState Unit := { wState with entries := [wEntry] }

def wFresh : RecState Unit := { wState with loaded := false }

def c7Cfg : Config Unit :=
  { wCfg Record with
    filters := [RemoveResponseHeader ("Secret")]
    transport := fun _ _ =>
      Except.ok { statusCode := 200, header := [(("Secret"), [("abc")])], body := ("hello") } }

def onceCfg : Config (List Nat) :=
  { mode := Auto
    filters := []
    transport := fun _ _ => Except.ok wResp
    selector := some (fun used entries req => oncePerCallSelect used entries req)
    unmarshal := fun _ => Except.error ("unused")
    marshal := fun _ => ("entry")
    metaLines := fun _ => ("") }

def onceSt : RecState (List Nat) :=
  { entries := [], index := 0, loaded := false, selSt := [], disk := none
    liveCalls := 0, liveOks := 0 }

def failCfg : Config Unit :=
  { wCfg Auto with transport := fun _ _ => Except.error ("connection refused") }

def rewriteUrlFilter : Filter :=
  fun e => { e with request := e.request.map (fun r => { r with url := ("http://redacted") }) }

def filtCfg : Config Unit := { wCfg Auto with filters := [rewriteUrlFilter] }

def dupCfg : Config Unit :=
  { wCfg Passthrough with
    transport := fun n _ =>
      Except.ok { statusCode := 200, header := [], body := if n = 0 then ("one") else ("two") } }

def cxOne : Entry :=
  { request := some { method := ("GET"), url := ("http://x/1"), headers := [], body := ("") }
    response := some { statusCode := 200, headers := [], body := ("one") } }

def cxTwo : Entry :=
  { request := some { method := ("GET"), url := ("http://x/1"), headers := [], body := ("") }
    response := some { statusCode := 200, headers := [], body := ("two") } }

def ptFiltCfg : Config Unit := { wCfg Passthrough with filters := [rewriteUrlFilter] }

def selCfg : Config Unit :=
  { wCfg ReplayOnly with selector := some (fun s _ _ => Except.ok (none, s)) }

/-- Behavior of `yaml.v2` relevant to the counterexample: unmarshalling an
    empty YAML document into a struct returns no error and leaves the
    struct at its zero value, i.e. nil `Request` and `Response` pointers. -/
def yamlZero : String → Except String Entry :=
  fun s =>
    if s = ("") then Except.ok { request := none, response := none }
    else Except.error ("unmarshal errors")

def c9Cfg : Config Unit := { wCfg ReplayOnly with unmarshal := yamlZero }

def c9St : RecState Unit := { wFresh with disk := some ("") }

/-- Serializer used by the C10 instances, modelling `yaml.v2` on a file
    with one well-formed document followed by one malformed document: the
    chunk `good` deserializes to a full entry, everything else fails. -/
def c10u : String → Except String Entry :=
  fun s =>
    if s = ("good") then Except.ok wEntry
    else Except.error ("yaml: unmarshal errors")

def c10Cfg : Config Unit := { wCfg Auto with unmarshal := c10u }

def c10St : RecState Unit := { wFresh with disk := some ("good\n---\nbad") }

/-! ### Lemmas and claims -/

/-! ### Supporting lemmas: state bookkeeping and branch characterizations -/

theorem RecState.mark_loaded {σ : Type} (st : RecState σ) (h : st.loaded = true) :
    ({ st with entries := st.entries, loaded := true } : RecState σ) = st := by
  cases st
  subst h
  rfl

theorem RecState.set_selSt_self {σ : Type} (st : RecState σ) :
    ({ st with selSt := st.selSt } : RecState σ) = st := by
  cases st
  rfl

theorem liveCall_err {σ : Type} (cfg : Config σ) (st : RecState σ) (req : HttpRequest)
    (msg : String) (ht : cfg.transport st.liveCalls req = Except.error msg) :
    liveCall cfg st req = (RTResult.err msg, { st with liveCalls := st.liveCalls + 1 }) := by
  unfold liveCall
  rw [ht]

theorem liveCall_ok_state {σ : Type} (cfg : Config σ) (st : RecState σ) (req : HttpRequest)
    (t : TranResponse) (ht : cfg.transport st.liveCalls req = Except.ok t) :
    (liveCall cfg st req).2.entries = st.entries ++ [applyFilters cfg.filters (mkEntry req t)] ∧
    (liveCall cfg st req).2.liveCalls = st.liveCalls + 1 ∧
    (liveCall cfg st req).2.liveOks = st.liveOks + 1 ∧
    (liveCall cfg st req).2.loaded = st.loaded ∧
    (liveCall cfg st req).2.selSt = st.selSt := by
  unfold liveCall
  rw [ht]
  simp only []
  split
  · split <;> simp
  · simp

theorem roundTrip_not_loaded_err {σ : Type} (cfg : Config σ) (st : RecState σ)
    (req : HttpRequest) (es : List Entry) (m : String)
    (hp : ¬ Passthrough < cfg.mode) (hl : st.loaded = false)
    (hload : loadFromDisk cfg.unmarshal cfg.mode st.disk st.entries = (es, some m)) :
    roundTrip cfg st req = (RTResult.panic m, { st with entries := es, loaded := true }) := by
  unfold roundTrip
  rw [if_neg hp, hl]
  simp only [Bool.false_eq_true, if_false, hload]

theorem roundTrip_not_loaded_ok {σ : Type} (cfg : Config σ) (st : RecState σ)
    (req : HttpRequest) (es : List Entry)
    (hp : ¬ Passthrough < cfg.mode) (hl : st.loaded = false)
    (hload : loadFromDisk cfg.unmarshal cfg.mode st.disk st.entries = (es, none)) :
    roundTrip cfg st req = roundTrip cfg { st with entries := es, loaded := true } req := by
  conv_lhs => unfold roundTrip
  conv_rhs => unfold roundTrip
  rw [if_neg hp, if_neg hp, hl]
  simp only [Bool.false_eq_true, if_false, if_true, hload]

theorem roundTrip_replay_hit {σ : Type} (cfg : Config σ) (st : RecState σ) (req : HttpRequest)
    (e : Entry) (s2 : σ) (resp : Response)
    (hl : st.loaded = true)
    (hm : cfg.mode = Auto ∨ cfg.mode = ReplayOnly)
    (hsel : selectStep cfg st req = Except.ok (some e, s2))
    (hresp : e.response = some resp) :
    roundTrip cfg st req = (RTResult.ok (synthesize resp), { st with selSt := s2 }) := by
  have hp : ¬ Passthrough < cfg.mode := by
    rcases hm with h | h <;> rw [h] <;> decide
  unfold roundTrip
  rw [if_neg hp, hl]
  simp only [if_true, RecState.mark_loaded st hl, if_pos hm, hsel, hresp]

theorem roundTrip_replay_miss_replayOnly {σ : Type} (cfg : Config σ) (st : RecState σ)
    (req : HttpRequest) (s2 : σ)
    (hl : st.loaded = true)
    (hm : cfg.mode = ReplayOnly)
    (hsel : selectStep cfg st req = Except.ok (none, s2)) :
    roundTrip cfg st req = (RTResult.noRequest req, { st with selSt := s2 }) := by
  have hp : ¬ Passthrough < cfg.mode := by rw [hm]; decide
  unfold roundTrip
  rw [if_neg hp, hl]
  simp only [if_true, RecState.mark_loaded st hl, if_pos (Or.inr hm), hsel, if_pos hm]

theorem roundTrip_replay_miss_auto {σ : Type} (cfg : Config σ) (st : RecState σ)
    (req : HttpRequest) (s2 : σ)
    (hl : st.loaded = true)
    (hm : cfg.mode = Auto)
    (hsel : selectStep cfg st req = Except.ok (none, s2)) :
    roundTrip cfg st req = liveCall cfg { st with selSt := s2 } req := by
  have hp : ¬ Passthrough < cfg.mode := by rw [hm]; decide
  have hne : ¬ cfg.mode = ReplayOnly := by rw [hm]; decide
  unfold roundTrip
  rw [if_neg hp, hl]
  simp only [if_true, RecState.mark_loaded st hl, if_pos (Or.inl hm), hsel, if_neg hne]

theorem roundTrip_sel_err {σ : Type} (cfg : Config σ) (st : RecState σ)
    (req : HttpRequest) (m : String)
    (hl : st.loaded = true)
    (hm : cfg.mode = Auto ∨ cfg.mode = ReplayOnly)
    (hsel : selectStep cfg st req = Except.error m) :
    roundTrip cfg st req = (RTResult.panic m, st) := by
  have hp : ¬ Passthrough < cfg.mode := by
    rcases hm with h | h <;> rw [h] <;> decide
  unfold roundTrip
  rw [if_neg hp, hl]
  simp only [if_true, RecState.mark_loaded st hl, if_pos hm, hsel]

theorem roundTrip_no_replay {σ : Type} (cfg : Config σ) (st : RecState σ) (req : HttpRequest)
    (hl : st.loaded = true)
    (hp : ¬ Passthrough < cfg.mode)
    (hm : ¬ (cfg.mode = Auto ∨ cfg.mode = ReplayOnly)) :
    roundTrip cfg st req = liveCall cfg st req := by
  unfold roundTrip
  rw [if_neg hp, hl]
  simp only [if_true, RecState.mark_loaded st hl, if_neg hm]

theorem lookupOp_loaded {σ : Type} (cfg : Config σ) (st : RecState σ) (method url : String)
    (hl : st.loaded = true) :
    lookupOp cfg st method url = (lookupEntries method url st.entries, st) := by
  unfold lookupOp
  rw [hl]
  simp only [if_true, RecState.mark_loaded st hl]

theorem lookupOp_not_loaded_ok {σ : Type} (cfg : Config σ) (st : RecState σ)
    (method url : String) (es : List Entry)
    (hl : st.loaded = false)
    (hload : loadFromDisk cfg.unmarshal cfg.mode st.disk st.entries = (es, none)) :
    lookupOp cfg st method url =
      (lookupEntries method url es, { st with entries := es, loaded := true }) := by
  unfold lookupOp
  rw [hl]
  simp only [Bool.false_eq_true, if_false, hload]

theorem lookupOp_not_loaded_err {σ : Type} (cfg : Config σ) (st : RecState σ)
    (method url : String) (es : List Entry) (m : String)
    (hl : st.loaded = false)
    (hload : loadFromDisk cfg.unmarshal cfg.mode st.disk st.entries = (es, some m)) :
    lookupOp cfg st method url =
      (Except.error m, { st with entries := es, loaded := true }) := by
  unfold lookupOp
  rw [hl]
  simp only [Bool.false_eq_true, if_false, hload]

theorem eqFold_self (a : String) : eqFold a a = true := by
  simp [eqFold]

theorem matchesMU_some {m u : String} {e : Entry} {r : Request} (hr : e.request = some r) :
    matchesMU m u e = (eqFold r.method m && eqFold r.url u) := by
  unfold matchesMU
  rw [hr]

theorem lookupEntries_eq_find (m u : String) (l : List Entry)
    (h : ∀ e ∈ l, e.request.isSome = true) :
    lookupEntries m u l = Except.ok (l.find? (matchesMU m u)) := by
  induction l with
  | nil => rfl
  | cons e rest ih =>
    obtain ⟨r, hr⟩ := Option.isSome_iff_exists.mp (h e (by simp))
    have ih2 := ih (fun x hx => h x (List.mem_cons_of_mem e hx))
    by_cases hme : (eqFold r.method m && eqFold r.url u) = true
    · simp only [lookupEntries, hr]
      rw [if_pos hme, List.find?_cons_of_pos _ (by rw [matchesMU_some hr]; exact hme)]
    · simp only [lookupEntries, hr]
      rw [if_neg hme, List.find?_cons_of_neg _ (by rw [matchesMU_some hr]; exact hme), ih2]

theorem lookupEntries_append_of_none (m u : String) (l : List Entry) (e : Entry)
    (h : lookupEntries m u l = Except.ok none)
    (he : matchesMU m u e = true) :
    lookupEntries m u (l ++ [e]) = Except.ok (some e) := by
  induction l with
  | nil =>
    cases hr : e.request with
    | none => simp only [matchesMU, hr, Bool.false_eq_true] at he
    | some r =>
      simp only [matchesMU, hr] at he
      simp only [List.nil_append, lookupEntries, hr]
      rw [if_pos he]
  | cons a rest ih =>
    cases hr : a.request with
    | none =>
      simp only [lookupEntries, hr] at h
      exact absurd h (by simp)
    | some r =>
      simp only [lookupEntries, hr] at h
      by_cases hma : (eqFold r.method m && eqFold r.url u) = true
      · rw [if_pos hma] at h
        exact absurd h (by simp)
      · rw [if_neg hma] at h
        simp only [List.cons_append, lookupEntries, hr]
        rw [if_neg hma]
        exact ih h

theorem applyFilters_cons (f : Filter) (fs : List Filter) (e : Entry) :
    applyFilters (f :: fs) e = applyFilters fs (f e) := rfl

theorem applyFilters_reqKey (fs : List Filter) (e : Entry)
    (h : ∀ f ∈ fs, KeyPreserving f) :
    reqKey (applyFilters fs e) = reqKey e := by
  induction fs generalizing e with
  | nil => rfl
  | cons f fs ih =>
    rw [applyFilters_cons, ih (f e) (fun g hg => h g (List.mem_cons_of_mem f hg)),
      h f (List.mem_cons_self f fs) e]

theorem matchesMU_of_reqKey {e : Entry} {m0 u0 : String}
    (h : reqKey e = some (m0, u0)) (m u : String) :
    matchesMU m u e = (eqFold m0 m && eqFold u0 u) := by
  cases hr : e.request with
  | none => unfold reqKey at h; rw [hr] at h; exact absurd h (by simp)
  | some r =>
    unfold reqKey at h
    rw [hr] at h
    simp at h
    rw [matchesMU_some hr, h.1, h.2]

theorem mkEntry_reqKey (req : HttpRequest) (t : TranResponse) :
    reqKey (mkEntry req t) = some (req.method, req.url) := rfl

theorem filtered_entry_matches (fs : List Filter) (req : HttpRequest) (t : TranResponse)
    (hfs : ∀ f ∈ fs, KeyPreserving f) :
    matchesMU req.method req.url (applyFilters fs (mkEntry req t)) = true := by
  have hk : reqKey (applyFilters fs (mkEntry req t)) = some (req.method, req.url) := by
    rw [applyFilters_reqKey _ _ hfs, mkEntry_reqKey]
  rw [matchesMU_of_reqKey hk, eqFold_self, eqFold_self]
  rfl

theorem selectFrom_eq_freshList (used : List Nat) (method url : String) :
    ∀ (l : List Entry) (n : Nat), (∀ e ∈ l, e.request.isSome = true) →
    selectFrom used method url n l =
      (match freshList used method url n l with
       | [] => Except.ok (none, used)
       | (i, e) :: _ => Except.ok (some e, i :: used)) := by
  intro l
  induction l with
  | nil => intro n h; rfl
  | cons e rest ih =>
    intro n h
    obtain ⟨r, hr⟩ := Option.isSome_iff_exists.mp (h e (by simp))
    have hmatch := matchesMU_some (m := method) (u := url) hr
    have ih2 := ih (n + 1) (fun x hx => h x (List.mem_cons_of_mem e hx))
    cases hm : eqFold r.method method with
    | false =>
      have hfl : (matchesMU method url e && !(used.contains n)) = false := by
        rw [hmatch, hm]; simp
      simp only [freshList]
      rw [hfl]
      simp only [Bool.false_eq_true, if_false, selectFrom, hr]
      rw [hm]
      simp only [Bool.false_eq_true, if_false]
      exact ih2
    | true =>
      cases hu : eqFold r.url url with
      | false =>
        have hfl : (matchesMU method url e && !(used.contains n)) = false := by
          rw [hmatch, hm, hu]; simp
        simp only [freshList]
        rw [hfl]
        simp only [Bool.false_eq_true, if_false, selectFrom, hr]
        rw [hm, hu]
        simp only [Bool.false_eq_true, if_false, if_true]
        exact ih2
      | true =>
        cases hc : used.contains n with
        | true =>
          have hfl : (matchesMU method url e && !(used.contains n)) = false := by
            rw [hmatch, hm, hu, hc]; simp
          simp only [freshList]
          rw [hfl]
          simp only [Bool.false_eq_true, if_false, selectFrom, hr]
          rw [hm, hu, hc]
          simp only [Bool.false_eq_true, if_false, if_true]
          exact ih2
        | false =>
          have hfl : (matchesMU method url e && !(used.contains n)) = true := by
            rw [hmatch, hm, hu, hc]; simp
          simp only [freshList]
          rw [hfl]
          simp only [if_true, selectFrom, hr]
          rw [hm, hu, hc]
          simp only [Bool.false_eq_true, if_false, if_true]

theorem freshList_ge (used : List Nat) (method url : String) :
    ∀ (l : List Entry) (n : Nat) (p : Nat × Entry),
    p ∈ freshList used method url n l → n ≤ p.1 := by
  intro l
  induction l with
  | nil => intro n p hp; simp [freshList] at hp
  | cons e rest ih =>
    intro n p hp
    by_cases hc : (matchesMU method url e && !(used.contains n)) = true
    · simp only [freshList, if_pos hc] at hp
      rcases List.mem_cons.mp hp with h1 | h2
      · rw [h1]
      · exact Nat.le_of_succ_le (ih (n + 1) p h2)
    · simp only [freshList, if_neg hc] at hp
      exact Nat.le_of_succ_le (ih (n + 1) p hp)

theorem freshList_matches (used : List Nat) (method url : String) :
    ∀ (l : List Entry) (n : Nat) (p : Nat × Entry),
    p ∈ freshList used method url n l → matchesMU method url p.2 = true := by
  intro l
  induction l with
  | nil => intro n p hp; simp [freshList] at hp
  | cons e rest ih =>
    intro n p hp
    by_cases hc : (matchesMU method url e && !(used.contains n)) = true
    · simp only [freshList, if_pos hc] at hp
      rcases List.mem_cons.mp hp with h1 | h2
      · have hme : matchesMU method url e = true := by
          cases hma : matchesMU method url e with
          | true => rfl
          | false => rw [hma] at hc; simp at hc
        rw [h1]
        exact hme
      · exact ih (n + 1) p h2
    · simp only [freshList, if_neg hc] at hp
      exact ih (n + 1) p hp

theorem freshList_getD (used : List Nat) (method url : String) :
    ∀ (l : List Entry) (n : Nat) (p : Nat × Entry),
    p ∈ freshList used method url n l → l.getD (p.1 - n) default = p.2 := by
  intro l
  induction l with
  | nil => intro n p hp; simp [freshList] at hp
  | cons e rest ih =>
    intro n p hp
    by_cases hc : (matchesMU method url e && !(used.contains n)) = true
    · simp only [freshList, if_pos hc] at hp
      rcases List.mem_cons.mp hp with h1 | h2
      · rw [h1]
        simp
      · have hge := freshList_ge used method url rest (n + 1) p h2
        have harith : p.1 - n = (p.1 - (n + 1)) + 1 := by omega
        rw [harith, List.getD_cons_succ]
        exact ih (n + 1) p h2
    · simp only [freshList, if_neg hc] at hp
      have hge := freshList_ge used method url rest (n + 1) p hp
      have harith : p.1 - n = (p.1 - (n + 1)) + 1 := by omega
      rw [harith, List.getD_cons_succ]
      exact ih (n + 1) p hp

theorem freshList_irrel (used : List Nat) (method url : String) (i : Nat) :
    ∀ (l : List Entry) (n : Nat), i < n →
    freshList (i :: used) method url n l = freshList used method url n l := by
  intro l
  induction l with
  | nil => intro n _; rfl
  | cons e rest ih =>
    intro n hin
    have hcon : ((i :: used).contains n) = (used.contains n) := by
      have hne : (n == i) = false := beq_eq_false_iff_ne.mpr (by omega)
      simp only [List.contains_cons, hne, Bool.false_or]
    simp only [freshList, hcon]
    by_cases hc : (matchesMU method url e && !(used.contains n)) = true
    · rw [if_pos hc, if_pos hc, ih (n + 1) (Nat.lt_succ_of_lt hin)]
    · rw [if_neg hc, if_neg hc, ih (n + 1) (Nat.lt_succ_of_lt hin)]

theorem freshList_consume (used : List Nat) (method url : String) :
    ∀ (l : List Entry) (n i : Nat) (e : Entry) (rest : List (Nat × Entry)),
    freshList used method url n l = (i, e) :: rest →
    freshList (i :: used) method url n l = rest := by
  intro l
  induction l with
  | nil => intro n i e rest h; simp [freshList] at h
  | cons a l2 ih =>
    intro n i e rest h
    by_cases hc : (matchesMU method url a && !(used.contains n)) = true
    · simp only [freshList, if_pos hc] at h
      injection h with h1 h2
      injection h1 with hi he
      subst hi
      have hcon : ((n :: used).contains n) = true := by
        simp [List.contains_cons]
      have hcond : (matchesMU method url a && !((n :: used).contains n)) = false := by
        rw [hcon]; simp
      simp only [freshList]
      rw [hcond]
      simp only [Bool.false_eq_true, if_false]
      rw [freshList_irrel used method url n l2 (n + 1) (Nat.lt_succ_self n)]
      exact h2
    · simp only [freshList, if_neg hc] at h
      have hcond : (matchesMU method url a && !((i :: used).contains n)) = false := by
        cases hma : matchesMU method url a with
        | false => simp
        | true =>
          have hun : used.contains n = true := by
            cases hcn : used.contains n with
            | true => rfl
            | false => rw [hma, hcn] at hc; simp at hc
          have hcc : ((i :: used).contains n) = true := by
            simp only [List.contains_cons, hun, Bool.or_true]
          rw [hcc]; simp
      simp only [freshList]
      rw [hcond]
      simp only [Bool.false_eq_true, if_false]
      exact ih (n + 1) i e rest h

theorem freshList_nil_map (method url : String) :
    ∀ (l : List Entry) (n : Nat),
    (freshList [] method url n l).map Prod.snd = l.filter (matchesMU method url) := by
  intro l
  induction l with
  | nil => intro n; rfl
  | cons e rest ih =>
    intro n
    cases hm : matchesMU method url e with
    | true =>
      have hcond : (matchesMU method url e && !(List.contains [] n)) = true := by
        rw [hm]; rfl
      simp only [freshList]
      rw [hcond]
      simp only [if_true, List.map_cons, List.filter_cons, hm]
      rw [ih (n + 1)]
    | false =>
      have hcond : (matchesMU method url e && !(List.contains [] n)) = false := by
        rw [hm]; rfl
      simp only [freshList]
      rw [hcond]
      simp only [Bool.false_eq_true, if_false, List.filter_cons, hm]
      exact ih (n + 1)

theorem getD_of_drop {α β : Type} (f : α → β) (d : β) :
    ∀ (k : Nat) (l : List α) (p : α) (tl : List α),
    l.drop k = p :: tl → (l.map f).getD k d = f p := by
  intro k
  induction k with
  | zero =>
    intro l p tl h
    rw [List.drop_zero] at h
    rw [h]
    rfl
  | succ k ih =>
    intro l p tl h
    cases l with
    | nil => simp at h
    | cons a l2 =>
      rw [List.drop_succ_cons] at h
      simp only [List.map_cons, List.getD_cons_succ]
      exact ih l2 p tl h

theorem iterUsed_fresh (entries : List Entry) (req : HttpRequest)
    (hpres : ∀ e ∈ entries, e.request.isSome = true) :
    ∀ k, freshList (iterUsed entries req k) req.method req.url 0 entries =
      (freshList [] req.method req.url 0 entries).drop k := by
  intro k
  induction k with
  | zero => rfl
  | succ k ih =>
    have hsel := selectFrom_eq_freshList (iterUsed entries req k) req.method req.url entries 0 hpres
    cases hF : freshList (iterUsed entries req k) req.method req.url 0 entries with
    | nil =>
      rw [hF] at hsel
      have hnext : iterUsed entries req (k + 1) = iterUsed entries req k := by
        simp only [iterUsed, oncePerCallSelect, hsel]
      have h0 : (freshList [] req.method req.url 0 entries).drop k = [] := by
        rw [← ih, hF]
      have h1 : (freshList [] req.method req.url 0 entries).length ≤ k :=
        List.drop_eq_nil_iff.mp h0
      rw [hnext, hF, Eq.comm, List.drop_eq_nil_iff]
      omega
    | cons p tl =>
      obtain ⟨i, e⟩ := p
      rw [hF] at hsel
      have hnext : iterUsed entries req (k + 1) = i :: iterUsed entries req k := by
        simp only [iterUsed, oncePerCallSelect, hsel]
      rw [hnext, freshList_consume _ _ _ entries 0 i e tl hF]
      have h0 : (freshList [] req.method req.url 0 entries).drop k = (i, e) :: tl := by
        rw [← ih, hF]
      have h1 := congrArg (List.drop 1) h0
      rw [List.drop_drop] at h1
      simp only [List.drop_succ_cons, List.drop_zero] at h1
      exact h1.symm

/-! ### Supporting lemmas for the Auto-mode at-most-one-live-call invariant -/

theorem roundTrip_replay_hit_nil {σ : Type} (cfg : Config σ) (st : RecState σ)
    (req : HttpRequest) (e : Entry) (s2 : σ)
    (hl : st.loaded = true)
    (hm : cfg.mode = Auto ∨ cfg.mode = ReplayOnly)
    (hsel : selectStep cfg st req = Except.ok (some e, s2))
    (hresp : e.response = none) :
    roundTrip cfg st req =
      (RTResult.panic ("runtime error: nil response in entry"), { st with selSt := s2 }) := by
  have hp : ¬ Passthrough < cfg.mode := by
    rcases hm with h | h <;> rw [h] <;> decide
  unfold roundTrip
  rw [if_neg hp, hl]
  simp only [if_true, RecState.mark_loaded st hl, if_pos hm, hsel, hresp]

theorem roundTrip_served_from_memory {σ : Type} (cfg : Config σ) (st : RecState σ)
    (req : HttpRequest) (e : Entry)
    (hm : cfg.mode = Auto ∨ cfg.mode = ReplayOnly)
    (hsel : cfg.selector = none)
    (hl : st.loaded = true)
    (hfound : lookupEntries req.method req.url st.entries = Except.ok (some e)) :
    (roundTrip cfg st req).2 = st := by
  have hstep : selectStep cfg st req = Except.ok (some e, st.selSt) := by
    unfold selectStep
    rw [hsel, hfound]
    rfl
  cases hresp : e.response with
  | none =>
    rw [roundTrip_replay_hit_nil cfg st req e st.selSt hl hm hstep hresp]
  | some r =>
    rw [roundTrip_replay_hit cfg st req e st.selSt r hl hm hstep hresp]

theorem autoInv_step_loaded {σ : Type} (cfg : Config σ) (base : Nat) (m u : String)
    (st : RecState σ) (r : HttpRequest)
    (hmode : cfg.mode = Auto) (hsel : cfg.selector = none)
    (hfil : ∀ f ∈ cfg.filters, KeyPreserving f)
    (hrm : r.method = m) (hru : r.url = u)
    (hl : st.loaded = true)
    (hinv : AutoInv base m u st) :
    AutoInv base m u (roundTrip cfg st r).2 := by
  cases hlook : lookupEntries m u st.entries with
  | error msg =>
    have hstep : selectStep cfg st r = Except.error msg := by
      unfold selectStep
      rw [hsel, hrm, hru, hlook]
      rfl
    rw [roundTrip_sel_err cfg st r msg hl (Or.inl hmode) hstep]
    exact hinv
  | ok o =>
    cases o with
    | some e =>
      rw [roundTrip_served_from_memory cfg st r e (Or.inl hmode) hsel hl
        (by rw [hrm, hru]; exact hlook)]
      exact hinv
    | none =>
      have hstep : selectStep cfg st r = Except.ok (none, st.selSt) := by
        unfold selectStep
        rw [hsel, hrm, hru, hlook]
        rfl
      rw [roundTrip_replay_miss_auto cfg st r st.selSt hl hmode hstep,
        RecState.set_selSt_self st]
      cases ht : cfg.transport st.liveCalls r with
      | error msg =>
        rw [liveCall_err cfg st r msg ht]
        rcases hinv with h | ⟨h1, h2, e, h3⟩
        · exact Or.inl h
        · exact Or.inr ⟨h1, h2, e, h3⟩
      | ok t =>
        obtain ⟨hent, hlc, hlo, hld, hss⟩ := liveCall_ok_state cfg st r t ht
        have hbase : st.liveOks = base := by
          rcases hinv with h | ⟨h1, h2, e, h3⟩
          · exact h
          · rw [h3] at hlook
            exact absurd hlook (by simp)
        right
        refine ⟨by rw [hlo, hbase], by rw [hld]; exact hl, ?_⟩
        refine ⟨applyFilters cfg.filters (mkEntry r t), ?_⟩
        rw [hent]
        exact lookupEntries_append_of_none m u st.entries _ hlook
          (by rw [← hrm, ← hru]; exact filtered_entry_matches cfg.filters r t hfil)

theorem autoInv_step {σ : Type} (cfg : Config σ) (base : Nat) (m u : String)
    (st : RecState σ) (r : HttpRequest)
    (hmode : cfg.mode = Auto) (hsel : cfg.selector = none)
    (hfil : ∀ f ∈ cfg.filters, KeyPreserving f)
    (hrm : r.method = m) (hru : r.url = u)
    (hinv : AutoInv base m u st) :
    AutoInv base m u (roundTrip cfg st r).2 := by
  cases hl : st.loaded with
  | true => exact autoInv_step_loaded cfg base m u st r hmode hsel hfil hrm hru hl hinv
  | false =>
    have hp : ¬ Passthrough < cfg.mode := by rw [hmode]; decide
    have hbase : st.liveOks = base := by
      rcases hinv with h | ⟨_, h2, _⟩
      · exact h
      · rw [hl] at h2; exact absurd h2 (by simp)
    cases hload : loadFromDisk cfg.unmarshal cfg.mode st.disk st.entries with
    | mk es p =>
      cases p with
      | some mm =>
        rw [roundTrip_not_loaded_err cfg st r es mm hp hl hload]
        exact Or.inl hbase
      | none =>
        rw [roundTrip_not_loaded_ok cfg st r es hp hl hload]
        exact autoInv_step_loaded cfg base m u { st with entries := es, loaded := true } r
          hmode hsel hfil hrm hru rfl (Or.inl hbase)

theorem autoInv_runSeq {σ : Type} (cfg : Config σ) (base : Nat) (m u : String)
    (hmode : cfg.mode = Auto) (hsel : cfg.selector = none)
    (hfil : ∀ f ∈ cfg.filters, KeyPreserving f) :
    ∀ (reqs : List HttpRequest) (st : RecState σ),
    (∀ r ∈ reqs, r.method = m ∧ r.url = u) →
    AutoInv base m u st → AutoInv base m u (runSeq cfg st reqs) := by
  intro reqs
  induction reqs with
  | nil => intro st _ hinv; exact hinv
  | cons r rs ih =>
    intro st hreqs hinv
    have hr := hreqs r (by simp)
    exact ih (roundTrip cfg st r).2 (fun x hx => hreqs x (List.mem_cons_of_mem r hx))
      (autoInv_step cfg base m u st r hmode hsel hfil hr.1 hr.2 hinv)

theorem runSeq_stable {σ : Type} (cfg : Config σ) (m u : String)
    (hmode : cfg.mode = Auto) (hsel : cfg.selector = none) :
    ∀ (post : List HttpRequest) (st : RecState σ),
    (∀ r ∈ post, r.method = m ∧ r.url = u) →
    st.loaded = true →
    (∃ e, lookupEntries m u st.entries = Except.ok (some e)) →
    runSeq cfg st post = st := by
  intro post
  induction post with
  | nil => intro st _ _ _; rfl
  | cons r rs ih =>
    intro st hreqs hl hmatch
    obtain ⟨e, he⟩ := hmatch
    have hr := hreqs r (by simp)
    have hstep : (roundTrip cfg st r).2 = st :=
      roundTrip_served_from_memory cfg st r e (Or.inl hmode) hsel hl
        (by rw [hr.1, hr.2]; exact he)
    show runSeq cfg (roundTrip cfg st r).2 rs = st
    rw [hstep]
    exact ih st (fun x hx => hreqs x (List.mem_cons_of_mem r hx)) hl ⟨e, he⟩

/-! ### Supporting lemmas for loading and the entry-shape invariant -/

theorem parseChunks_error (u : String → Except String Entry) :
    ∀ (chunks : List String) (c : String) (msg : String),
    c ∈ chunks → u c = Except.error msg →
    ∃ m2, (parseChunks u chunks).2 = some m2 := by
  intro chunks
  induction chunks with
  | nil => intro c msg hc _; simp at hc
  | cons a rest ih =>
    intro c msg hc hu
    cases ha : u a with
    | error m3 => exact ⟨("unmarshal session: ") ++ m3, by simp only [parseChunks, ha]⟩
    | ok e =>
      rcases List.mem_cons.mp hc with h1 | h2
      · subst h1
        rw [ha] at hu
        exact absurd hu (by simp)
      · obtain ⟨m2, hm2⟩ := ih c msg h2 hu
        refine ⟨m2, ?_⟩
        simp only [parseChunks, ha]
        exact hm2

theorem mkEntry_full (req : HttpRequest) (t : TranResponse) : EntryFull (mkEntry req t) :=
  ⟨rfl, rfl⟩

theorem applyFilters_full (fs : List Filter) (e : Entry)
    (hfs : ∀ f ∈ fs, PresencePreserving f) (he : EntryFull e) :
    EntryFull (applyFilters fs e) := by
  induction fs generalizing e with
  | nil => exact he
  | cons f fs ih =>
    rw [applyFilters_cons]
    exact ih (f e) (fun g hg => hfs g (List.mem_cons_of_mem f hg))
      (hfs f (List.mem_cons_self f fs) e he)

theorem parseChunks_full (u : String → Except String Entry)
    (hu : ∀ c e, u c = Except.ok e → EntryFull e) :
    ∀ (chunks : List String), ∀ e ∈ (parseChunks u chunks).1, EntryFull e := by
  intro chunks
  induction chunks with
  | nil =>
    intro e he
    simp [parseChunks] at he
  | cons a rest ih =>
    intro e he
    cases ha : u a with
    | error m =>
      simp only [parseChunks, ha] at he
      simp at he
    | ok e1 =>
      simp only [parseChunks, ha] at he
      rcases List.mem_cons.mp he with h1 | h2
      · subst h1; exact hu a e ha
      · exact ih e h2

theorem loadFromDisk_full (u : String → Except String Entry) (mode : Mode)
    (disk : Option String) (entries : List Entry)
    (hu : ∀ c e, u c = Except.ok e → EntryFull e)
    (hents : ∀ e ∈ entries, EntryFull e) :
    ∀ e ∈ (loadFromDisk u mode disk entries).1, EntryFull e := by
  by_cases hmode : mode = Passthrough
  · simp only [loadFromDisk, if_pos hmode]
    exact hents
  · cases disk with
    | none =>
      simp only [loadFromDisk, if_neg hmode]
      exact hents
    | some content =>
      simp only [loadFromDisk, if_neg hmode]
      intro e he
      rcases List.mem_append.mp he with h1 | h2
      · exact hents e h1
      · exact parseChunks_full u hu (splitMarker content) e h2

theorem loadFromDisk_some (u : String → Except String Entry) (mode : Mode)
    (content : String) (entries : List Entry)
    (hmode : ¬ mode = Passthrough) :
    loadFromDisk u mode (some content) entries =
      (entries ++ (parseChunks u (splitMarker content)).1,
       (parseChunks u (splitMarker content)).2) := by
  simp only [loadFromDisk, if_neg hmode]

theorem liveCall_full {σ : Type} (cfg : Config σ) (st : RecState σ) (req : HttpRequest)
    (hfil : ∀ f ∈ cfg.filters, PresencePreserving f)
    (hents : ∀ e ∈ st.entries, EntryFull e) :
    ∀ e ∈ (liveCall cfg st req).2.entries, EntryFull e := by
  unfold liveCall
  cases ht : cfg.transport st.liveCalls req with
  | error msg => exact hents
  | ok t =>
    have hful : ∀ e ∈ st.entries ++ [applyFilters cfg.filters (mkEntry req t)], EntryFull e := by
      intro e he
      rcases List.mem_append.mp he with h1 | h2
      · exact hents e h1
      · rw [List.mem_singleton.mp h2]
        exact applyFilters_full cfg.filters _ hfil (mkEntry_full req t)
    simp only []
    split
    · split
      · exact hful
      · exact hful
    · exact hful

theorem roundTrip_full {σ : Type} (cfg : Config σ) (st : RecState σ) (req : HttpRequest)
    (hfil : ∀ f ∈ cfg.filters, PresencePreserving f)
    (hu : ∀ c e, cfg.unmarshal c = Except.ok e → EntryFull e)
    (hents : ∀ e ∈ st.entries, EntryFull e) :
    ∀ e ∈ (roundTrip cfg st req).2.entries, EntryFull e := by
  have hloadfull := loadFromDisk_full cfg.unmarshal cfg.mode st.disk st.entries hu hents
  unfold roundTrip
  split
  · exact hents
  · split
    · case _ es mm heq =>
      by_cases hl : st.loaded = true
      · rw [if_pos hl] at heq
        injection heq with h1 h2
        exact absurd h2 (by simp)
      · rw [if_neg hl] at heq
        have h1 := congrArg Prod.fst heq
        rw [h1] at hloadfull
        exact hloadfull
    · case _ es heq =>
      have hesfull : ∀ e ∈ es, EntryFull e := by
        by_cases hl : st.loaded = true
        · rw [if_pos hl] at heq
          injection heq with h1 h2
          rw [← h1]
          exact hents
        · rw [if_neg hl] at heq
          have h1 := congrArg Prod.fst heq
          rw [h1] at hloadfull
          exact hloadfull
      simp only []
      split
      · split
        · exact hesfull
        · split
          · exact hesfull
          · exact hesfull
        · split
          · exact hesfull
          · exact liveCall_full cfg _ req hfil hesfull
      · exact liveCall_full cfg _ req hfil hesfull

theorem liveCall_nowrite {σ : Type} (cfg : Config σ) (st : RecState σ) (req : HttpRequest)
    (t : TranResponse)
    (hnw : ¬ (cfg.mode = Auto ∨ cfg.mode = Record))
    (ht : cfg.transport st.liveCalls req = Except.ok t) :
    liveCall cfg st req =
      (RTResult.ok (synthesize ((applyFilters cfg.filters (mkEntry req t)).response.getD
          (captureResponse t))),
        { st with
          liveCalls := st.liveCalls + 1
          liveOks := st.liveOks + 1
          entries := st.entries ++ [applyFilters cfg.filters (mkEntry req t)] }) := by
  unfold liveCall
  rw [ht]
  simp only [if_neg hnw]

theorem liveCall_write_ok {σ : Type} (cfg : Config σ) (st : RecState σ) (req : HttpRequest)
    (t : TranResponse) (content : String)
    (hw : cfg.mode = Auto ∨ cfg.mode = Record)
    (ht : cfg.transport st.liveCalls req = Except.ok t)
    (hwr : writeEntry cfg.marshal cfg.metaLines st.index
        (applyFilters cfg.filters (mkEntry req t)) st.disk = Except.ok content) :
    liveCall cfg st req =
      (RTResult.ok (synthesize ((applyFilters cfg.filters (mkEntry req t)).response.getD
          (captureResponse t))),
        { st with
          liveCalls := st.liveCalls + 1
          liveOks := st.liveOks + 1
          entries := st.entries ++ [applyFilters cfg.filters (mkEntry req t)]
          disk := some content
          index := st.index + 1 }) := by
  unfold liveCall
  rw [ht]
  simp only [if_pos hw]
  rw [hwr]

theorem liveCall_write_err {σ : Type} (cfg : Config σ) (st : RecState σ) (req : HttpRequest)
    (t : TranResponse) (m : String)
    (hw : cfg.mode = Auto ∨ cfg.mode = Record)
    (ht : cfg.transport st.liveCalls req = Except.ok t)
    (hwr : writeEntry cfg.marshal cfg.metaLines st.index
        (applyFilters cfg.filters (mkEntry req t)) st.disk = Except.error m) :
    liveCall cfg st req =
      (RTResult.err m,
        { st with
          liveCalls := st.liveCalls + 1
          liveOks := st.liveOks + 1
          entries := st.entries ++ [applyFilters cfg.filters (mkEntry req t)] }) := by
  unfold liveCall
  rw [ht]
  simp only [if_pos hw]
  rw [hwr]

theorem runSeq_append {σ : Type} (cfg : Config σ) :
    ∀ (pre post : List HttpRequest) (st : RecState σ),
    runSeq cfg st (pre ++ post) = runSeq cfg (runSeq cfg st pre) post := by
  intro pre
  induction pre with
  | nil => intro post st; rfl
  | cons r rs ih =>
    intro post st
    show runSeq cfg (roundTrip cfg st r).2 (rs ++ post) =
      runSeq cfg (runSeq cfg (roundTrip cfg st r).2 rs) post
    exact ih post (roundTrip cfg st r).2

/-! ### Claims -/

/-- Claim C2: in ReplayOnly mode, when the selector (or the default
    lookup) finds no matching entry, RoundTrip returns the NoRequestError
    carrying the original request, performs no live call via the transport,
    appends no entry to the in-memory list and writes nothing to disk. -/
theorem replayOnly_miss_no_side_effects {σ : Type} (cfg : Config σ) (st : RecState σ)
    (req : HttpRequest) (s2 : σ)
    (hl : st.loaded = true)
    (hm : cfg.mode = ReplayOnly)
    (hsel : selectStep cfg st req = Except.ok (none, s2)) :
    (roundTrip cfg st req).1 = RTResult.noRequest req ∧
    (roundTrip cfg st req).2.entries = st.entries ∧
    (roundTrip cfg st req).2.disk = st.disk ∧
    (roundTrip cfg st req).2.index = st.index ∧
    (roundTrip cfg st req).2.liveCalls = st.liveCalls := by
  rw [roundTrip_replay_miss_replayOnly cfg st req s2 hl hm hsel]
  exact ⟨rfl, rfl, rfl, rfl, rfl⟩

theorem replayOnly_miss_no_side_effects_witness :
    (roundTrip (wCfg ReplayOnly) wState wReq).1 = RTResult.noRequest wReq :=
  (replayOnly_miss_no_side_effects (wCfg ReplayOnly) wState wReq () rfl rfl rfl).1

/-- Claim C3: whenever the replay branch (mode Auto or ReplayOnly) finds a
    stored entry, the returned response is synthesized with no transport
    invocation: status code, expansion of the stored header map, stored
    body, and content length equal to the byte length of the stored
    response body. -/
theorem replay_hit_synthesizes_response {σ : Type} (cfg : Config σ) (st : RecState σ)
    (req : HttpRequest) (e : Entry) (s2 : σ) (resp : Response)
    (hl : st.loaded = true)
    (hm : cfg.mode = Auto ∨ cfg.mode = ReplayOnly)
    (hsel : selectStep cfg st req = Except.ok (some e, s2))
    (hresp : e.response = some resp) :
    (roundTrip cfg st req).1 = RTResult.ok
      { statusCode := resp.statusCode
        header := expandHeader resp.headers
        body := resp.body
        contentLength := Int.ofNat resp.body.utf8ByteSize } ∧
    (roundTrip cfg st req).2.entries = st.entries ∧
    (roundTrip cfg st req).2.liveCalls = st.liveCalls ∧
    (roundTrip cfg st req).2.disk = st.disk := by
  rw [roundTrip_replay_hit cfg st req e s2 resp hl hm hsel hresp]
  exact ⟨rfl, rfl, rfl, rfl⟩

theorem replay_hit_synthesizes_response_witness :
    (roundTrip (wCfg ReplayOnly) wStateE wReq).1 = RTResult.ok
      { statusCode := 200
        header := expandHeader []
        body := ("hello")
        contentLength := Int.ofNat (String.utf8ByteSize ("hello")) } :=
  (replay_hit_synthesizes_response (wCfg ReplayOnly) wStateE wReq wEntry ()
    { statusCode := 200, headers := [], body := ("hello") } rfl (Or.inr rfl) rfl rfl).1

/-- Claim C7: on a successful live call the filters are applied strictly in
    registration order, each seeing the cumulative result of the previous
    ones (`applyFilters` is the fold of the filter list, and composing
    filter lists is composing the folds); the post-filter entry is appended
    to the in-memory list; and any response handed back to the caller is
    reconstructed from the post-filter entry.  (In Go the reconstruction
    reads the captured response record through the pointer the filters
    mutate in place, which coincides with the post-filter entry under the
    documented mutate-in-place filter contract that this value-level model
    expresses.) -/
theorem filters_order_and_response {σ : Type} (cfg : Config σ) (st : RecState σ)
    (req : HttpRequest) (t : TranResponse) (r : Response)
    (ht : cfg.transport st.liveCalls req = Except.ok t)
    (hresp : (applyFilters cfg.filters (mkEntry req t)).response = some r) :
    (liveCall cfg st req).2.entries =
      st.entries ++ [applyFilters cfg.filters (mkEntry req t)] ∧
    (∀ resp, (liveCall cfg st req).1 = RTResult.ok resp → resp = synthesize r) ∧
    (∀ (fs1 fs2 : List Filter) (e : Entry),
      applyFilters (fs1 ++ fs2) e = applyFilters fs2 (applyFilters fs1 e)) := by
  refine ⟨(liveCall_ok_state cfg st req t ht).1, ?_, ?_⟩
  · intro resp hres
    by_cases hw : cfg.mode = Auto ∨ cfg.mode = Record
    · cases hwr : writeEntry cfg.marshal cfg.metaLines st.index
          (applyFilters cfg.filters (mkEntry req t)) st.disk with
      | error mm =>
        rw [liveCall_write_err cfg st req t mm hw ht hwr] at hres
        exact absurd hres (by simp)
      | ok content =>
        rw [liveCall_write_ok cfg st req t content hw ht hwr] at hres
        have hres2 : RTResult.ok (synthesize
            ((applyFilters cfg.filters (mkEntry req t)).response.getD (captureResponse t))) =
            RTResult.ok resp := hres
        injection hres2 with h
        rw [← h, hresp]
        rfl
    · rw [liveCall_nowrite cfg st req t hw ht] at hres
      have hres2 : RTResult.ok (synthesize
          ((applyFilters cfg.filters (mkEntry req t)).response.getD (captureResponse t))) =
          RTResult.ok resp := hres
      injection hres2 with h
      rw [← h, hresp]
      rfl
  · intro fs1 fs2 e
    unfold applyFilters
    rw [List.foldl_append]

theorem filters_order_and_response_witness :
    (liveCall c7Cfg wState wReq).2.entries =
      wState.entries ++ [applyFilters c7Cfg.filters
        (mkEntry wReq { statusCode := 200, header := [(("Secret"), [("abc")])], body := ("hello") })] :=
  (filters_order_and_response c7Cfg wState wReq
    { statusCode := 200, header := [(("Secret"), [("abc")])], body := ("hello") }
    { statusCode := 200, headers := [], body := ("hello") } rfl rfl).1

/-- Claim C8 (code bug): the guard at the top of RoundTrip is Go
    `r.Mode > Passthrough`, which rejects only mode values above 3.  A
    negative mode value is also outside the enumerated set, yet it is not
    rejected: RoundTrip proceeds, performs a live call, and behaves like
    Passthrough (no replay, no disk write) instead of panicking — against
    the claim and the function's own doc comment ("Attempting to set
    another mode will cause a panic").  A mode above Passthrough does panic
    as documented. -/
theorem negative_mode_no_panic :
    (roundTrip (wCfg (-1)) wState wReq).1 =
      RTResult.ok (synthesize (captureResponse wResp)) ∧
    (roundTrip (wCfg (-1)) wState wReq).2.liveCalls = 1 ∧
    (roundTrip (wCfg (-1)) wState wReq).2.disk = none ∧
    (roundTrip (wCfg 4) wState wReq).1 = RTResult.panic ("Unsupported mode") :=
  ⟨rfl, rfl, rfl, rfl⟩

/-- Claim C1 counterexample: an Auto-mode recorder instance is not limited
    to one live call per (method, URL) pair as stated.  (i) With the
    package's own OncePerCall selector, three identical calls perform two
    live calls: the second call consumes the recorded entry, so the third
    falls through to the network again.  (ii) With the default lookup but a
    transport that keeps failing, both of two identical calls invoke the
    transport.  (iii) With a filter that rewrites the recorded URL, both of
    two identical calls complete successful live calls, because the stored
    entry no longer matches the request. -/
theorem auto_mode_live_call_counterexample :
    (runSeq onceCfg onceSt [wReq, wReq, wReq]).liveCalls = 2 ∧
    (runSeq failCfg wFresh [wReq, wReq]).liveCalls = 2 ∧
    (runSeq filtCfg wFresh [wReq, wReq]).liveOks = 2 :=
  ⟨rfl, rfl, rfl⟩

/-- Claim C1 (amended): in Auto mode with no custom Selector (so the
    default lookup applies) and filters that preserve the recorded
    request's method and URL, a sequence of RoundTrip calls sharing one
    (method, URL) key completes at most one successful live call; and once
    one call has succeeded as a live call, every later identical call
    leaves the recorder state — in particular the transport invocation
    count — unchanged, being answered from the in-memory entry list. -/
theorem auto_mode_single_successful_live_call {σ : Type} (cfg : Config σ)
    (st : RecState σ) (m u : String) (reqs : List HttpRequest)
    (hmode : cfg.mode = Auto) (hsel : cfg.selector = none)
    (hfil : ∀ f ∈ cfg.filters, KeyPreserving f)
    (hreqs : ∀ r ∈ reqs, r.method = m ∧ r.url = u) :
    (runSeq cfg st reqs).liveOks ≤ st.liveOks + 1 ∧
    (∀ pre post, reqs = pre ++ post →
      (runSeq cfg st pre).liveOks = st.liveOks + 1 →
      runSeq cfg st (pre ++ post) = runSeq cfg st pre) := by
  constructor
  · have hinv := autoInv_runSeq cfg st.liveOks m u hmode hsel hfil reqs st hreqs (Or.inl rfl)
    rcases hinv with h | ⟨h1, _, _⟩
    · omega
    · omega
  · intro pre post hsplit hone
    have hpre : ∀ r ∈ pre, r.method = m ∧ r.url = u := by
      intro r hr
      exact hreqs r (by rw [hsplit]; exact List.mem_append_left post hr)
    have hpost : ∀ r ∈ post, r.method = m ∧ r.url = u := by
      intro r hr
      exact hreqs r (by rw [hsplit]; exact List.mem_append_right pre hr)
    have hinv := autoInv_runSeq cfg st.liveOks m u hmode hsel hfil pre st hpre (Or.inl rfl)
    rcases hinv with h | ⟨h1, h2, hm3⟩
    · exfalso; omega
    · rw [runSeq_append cfg pre post st]
      exact runSeq_stable cfg m u hmode hsel post (runSeq cfg st pre) hpost h2 hm3

theorem auto_mode_single_successful_live_call_witness :
    (runSeq (wCfg Auto) wFresh [wReq, wReq]).liveOks ≤ wFresh.liveOks + 1 :=
  (auto_mode_single_successful_live_call (wCfg Auto) wFresh ("GET") ("http://x/1")
    [wReq, wReq] rfl rfl (fun f hf => (List.not_mem_nil f hf).elim) (by decide)).1

/-- Claim C4 counterexample: "a subsequent Lookup with the same method and
    URL returns that Entry with found = true" fails as stated.  (i) After
    two identical Passthrough calls whose live responses differ, both
    entries are in the list but Lookup returns the first recorded entry,
    not the entry of the later call.  (ii) With a filter that rewrites the
    recorded URL, Lookup after the call does not find the entry at all. -/
theorem passthrough_lookup_counterexample :
    (runSeq dupCfg wFresh [wReq, wReq]).entries = [cxOne, cxTwo] ∧
    (lookupOp dupCfg (runSeq dupCfg wFresh [wReq, wReq]) ("GET") ("http://x/1")).1 =
      Except.ok (some cxOne) ∧
    ¬ cxOne = cxTwo ∧
    (lookupOp ptFiltCfg (roundTrip ptFiltCfg wFresh wReq).2 ("GET") ("http://x/1")).1 =
      Except.ok none :=
  ⟨rfl, rfl, by decide, rfl⟩

/-- Claim C4 (amended): for a Passthrough RoundTrip, the one-time load
    reads nothing from disk (it is the identity on the state for every disk
    content), no disk write occurs and no file is created (the disk and the
    write index are unchanged), but after a successful live call the
    post-filter entry is still appended to the in-memory list; provided the
    filters preserve the recorded method and URL and no earlier entry
    matched the key, a subsequent Lookup with the same method and URL
    returns exactly that entry with found = true. -/
theorem passthrough_no_disk_lookup_finds {σ : Type} (cfg : Config σ) (st : RecState σ)
    (req : HttpRequest) (t : TranResponse)
    (hm : cfg.mode = Passthrough)
    (hfil : ∀ f ∈ cfg.filters, KeyPreserving f)
    (ht : cfg.transport st.liveCalls req = Except.ok t)
    (hnoprior : lookupEntries req.method req.url st.entries = Except.ok none) :
    (∀ (d : Option String) (es : List Entry),
      loadFromDisk cfg.unmarshal Passthrough d es = (es, none)) ∧
    (roundTrip cfg st req).2.disk = st.disk ∧
    (roundTrip cfg st req).2.index = st.index ∧
    (roundTrip cfg st req).2.entries =
      st.entries ++ [applyFilters cfg.filters (mkEntry req t)] ∧
    (lookupOp cfg (roundTrip cfg st req).2 req.method req.url).1 =
      Except.ok (some (applyFilters cfg.filters (mkEntry req t))) := by
  have hp : ¬ Passthrough < cfg.mode := by rw [hm]; decide
  have hnrep : ¬ (cfg.mode = Auto ∨ cfg.mode = ReplayOnly) := by rw [hm]; decide
  have hnw : ¬ (cfg.mode = Auto ∨ cfg.mode = Record) := by rw [hm]; decide
  have hload : ∀ (d : Option String) (es : List Entry),
      loadFromDisk cfg.unmarshal Passthrough d es = (es, none) := by
    intro d es
    unfold loadFromDisk
    rw [if_pos rfl]
  cases hl : st.loaded with
  | true =>
    have h2 : (roundTrip cfg st req).2 = { st with
        entries := st.entries ++ [applyFilters cfg.filters (mkEntry req t)]
        liveCalls := st.liveCalls + 1
        liveOks := st.liveOks + 1 } := by
      rw [roundTrip_no_replay cfg st req hl hp hnrep, liveCall_nowrite cfg st req t hnw ht]
    refine ⟨hload, by rw [h2], by rw [h2], by rw [h2], ?_⟩
    rw [h2, lookupOp_loaded cfg
      { st with
        entries := st.entries ++ [applyFilters cfg.filters (mkEntry req t)]
        liveCalls := st.liveCalls + 1
        liveOks := st.liveOks + 1 } req.method req.url hl]
    exact lookupEntries_append_of_none req.method req.url st.entries _ hnoprior
      (filtered_entry_matches cfg.filters req t hfil)
  | false =>
    have hload0 : loadFromDisk cfg.unmarshal cfg.mode st.disk st.entries =
        (st.entries, none) := by
      rw [hm]
      exact hload st.disk st.entries
    have h2 : (roundTrip cfg st req).2 = { st with
        entries := st.entries ++ [applyFilters cfg.filters (mkEntry req t)]
        loaded := true
        liveCalls := st.liveCalls + 1
        liveOks := st.liveOks + 1 } := by
      rw [roundTrip_not_loaded_ok cfg st req st.entries hp hl hload0,
        roundTrip_no_replay cfg { st with entries := st.entries, loaded := true } req rfl hp hnrep,
        liveCall_nowrite cfg { st with entries := st.entries, loaded := true } req t hnw ht]
    refine ⟨hload, by rw [h2], by rw [h2], by rw [h2], ?_⟩
    rw [h2, lookupOp_loaded cfg
      { st with
        entries := st.entries ++ [applyFilters cfg.filters (mkEntry req t)]
        loaded := true
        liveCalls := st.liveCalls + 1
        liveOks := st.liveOks + 1 } req.method req.url rfl]
    exact lookupEntries_append_of_none req.method req.url st.entries _ hnoprior
      (filtered_entry_matches cfg.filters req t hfil)

theorem passthrough_no_disk_lookup_finds_witness :
    (lookupOp (wCfg Passthrough) (roundTrip (wCfg Passthrough) wFresh wReq).2
      wReq.method wReq.url).1 =
      Except.ok (some (applyFilters (wCfg Passthrough).filters (mkEntry wReq wResp))) :=
  (passthrough_no_disk_lookup_finds (wCfg Passthrough) wFresh wReq wResp rfl
    (fun f hf => (List.not_mem_nil f hf).elim) rfl rfl).2.2.2.2

/-- Claim C5: Lookup returns the first entry, in insertion order, whose
    request method and URL both case-insensitively equal the arguments
    (`List.find?` over the default matching rule), and (empty, false) —
    here `none` — when no entry matches; on an already loaded state it
    returns the state unchanged; it never consults the configured Selector
    (two configurations agreeing on mode and serializer produce identical
    Lookup behavior whatever their selectors); and on a not-yet-loaded
    state it triggers the one-time store load. -/
theorem lookup_default_rule {σ : Type} (cfg cfg2 : Config σ) (st : RecState σ) (m u : String)
    (hl : st.loaded = true)
    (hpres : ∀ e ∈ st.entries, e.request.isSome = true)
    (hm2 : cfg2.mode = cfg.mode) (hu2 : cfg2.unmarshal = cfg.unmarshal) :
    lookupOp cfg st m u = (Except.ok (st.entries.find? (matchesMU m u)), st) ∧
    (∀ st3 : RecState σ, lookupOp cfg2 st3 m u = lookupOp cfg st3 m u) ∧
    (∀ (st2 : RecState σ) (es : List Entry), st2.loaded = false →
      loadFromDisk cfg.unmarshal cfg.mode st2.disk st2.entries = (es, none) →
      lookupOp cfg st2 m u =
        (lookupEntries m u es, { st2 with entries := es, loaded := true })) := by
  refine ⟨?_, ?_, ?_⟩
  · rw [lookupOp_loaded cfg st m u hl, lookupEntries_eq_find m u st.entries hpres]
  · intro st3
    unfold lookupOp
    rw [hm2, hu2]
  · intro st2 es h2 hload
    exact lookupOp_not_loaded_ok cfg st2 m u es h2 hload

theorem lookup_default_rule_witness :
    (lookupOp (wCfg ReplayOnly) wStateE ("get") ("HTTP://X/1")).1 =
      Except.ok (some wEntry) := by
  have h := (lookup_default_rule (wCfg ReplayOnly) selCfg wStateE ("get") ("HTTP://X/1")
    rfl (by decide) rfl rfl).1
  exact congrArg Prod.fst h

/-- Claim C6: for the consume-once selector over a fixed entry list with
    exactly N entries matching the request key, the first N Select calls
    for that key succeed and return the matching entries in insertion
    order, every later call for that key returns found = false with the
    used set unchanged, and a Select call for a different key only consumes
    positions whose entries match that other key (so a non-matching key
    consumes no position of this key). -/
theorem oncePerCall_consume_semantics (entries : List Entry) (req : HttpRequest)
    (hpres : ∀ e ∈ entries, e.request.isSome = true) :
    (∀ k, k < (entries.filter (matchesMU req.method req.url)).length →
      oncePerCallSelect (iterUsed entries req k) entries req =
        Except.ok (some ((entries.filter (matchesMU req.method req.url)).getD k default),
          iterUsed entries req (k + 1))) ∧
    (∀ k, (entries.filter (matchesMU req.method req.url)).length ≤ k →
      oncePerCallSelect (iterUsed entries req k) entries req =
        Except.ok (none, iterUsed entries req k)) ∧
    (∀ (used u2 : List Nat) (req2 : HttpRequest) (o : Option Entry),
      oncePerCallSelect used entries req2 = Except.ok (o, u2) →
      ∀ j, u2.contains j = true →
        used.contains j = true ∨
          matchesMU req2.method req2.url (entries.getD j default) = true) := by
  have hlen : (freshList [] req.method req.url 0 entries).length =
      (entries.filter (matchesMU req.method req.url)).length := by
    rw [← freshList_nil_map req.method req.url entries 0, List.length_map]
  refine ⟨?_, ?_, ?_⟩
  · intro k hk
    have hsel := selectFrom_eq_freshList (iterUsed entries req k) req.method req.url entries 0 hpres
    have hinv := iterUsed_fresh entries req hpres k
    rw [hinv] at hsel
    cases hF : (freshList [] req.method req.url 0 entries).drop k with
    | nil =>
      exfalso
      have hle := List.drop_eq_nil_iff.mp hF
      omega
    | cons p tl =>
      obtain ⟨i, e⟩ := p
      rw [hF] at hsel
      have hnext : iterUsed entries req (k + 1) = i :: iterUsed entries req k := by
        simp only [iterUsed, oncePerCallSelect, hsel]
      have hgd : (entries.filter (matchesMU req.method req.url)).getD k default = e := by
        rw [← freshList_nil_map req.method req.url entries 0]
        exact getD_of_drop Prod.snd default k _ (i, e) tl hF
      unfold oncePerCallSelect
      rw [hsel, hnext, hgd]
  · intro k hk
    have hsel := selectFrom_eq_freshList (iterUsed entries req k) req.method req.url entries 0 hpres
    have hinv := iterUsed_fresh entries req hpres k
    rw [hinv] at hsel
    have hF : (freshList [] req.method req.url 0 entries).drop k = [] := by
      rw [List.drop_eq_nil_iff]
      omega
    rw [hF] at hsel
    unfold oncePerCallSelect
    rw [hsel]
  · intro used u2 req2 o hsel2 j hj
    have hs := selectFrom_eq_freshList used req2.method req2.url entries 0 hpres
    unfold oncePerCallSelect at hsel2
    cases hF : freshList used req2.method req2.url 0 entries with
    | nil =>
      rw [hF] at hs
      rw [hs] at hsel2
      injection hsel2 with hpair
      injection hpair with ho hu2
      left
      rw [← hu2] at hj
      exact hj
    | cons p tl =>
      obtain ⟨i, e⟩ := p
      rw [hF] at hs
      rw [hs] at hsel2
      injection hsel2 with hpair
      injection hpair with ho hu2
      rw [← hu2] at hj
      rw [List.contains_cons] at hj
      cases hji : (j == i) with
      | true =>
        have hje : j = i := eq_of_beq hji
        subst hje
        right
        have hmem : (j, e) ∈ freshList used req2.method req2.url 0 entries := by
          rw [hF]
          exact List.mem_cons_self _ _
        have h1 := freshList_matches used req2.method req2.url entries 0 (j, e) hmem
        have h2 := freshList_getD used req2.method req2.url entries 0 (j, e) hmem
        rw [Nat.sub_zero] at h2
        rw [h2]
        exact h1
      | false =>
        rw [hji, Bool.false_or] at hj
        exact Or.inl hj

theorem oncePerCall_consume_semantics_witness :
    oncePerCallSelect [] [wEntry, wEntry2] wReq = Except.ok (some wEntry, [0]) :=
  (oncePerCall_consume_semantics [wEntry, wEntry2] wReq (by decide)).1 0 (by decide)

/-- Claim C9 counterexample: entries loaded from the backing file are not
    guaranteed to have request and response present.  A backing file that
    exists but is empty splits into one empty chunk; `yaml.v2` unmarshals
    an empty document into the struct's zero value — nil pointers — with no
    error (modelled by `yamlZero`), so the loader inserts an entry with
    neither request nor response into the in-memory list, and the very next
    Lookup dereferences the nil request (a runtime panic). -/
theorem loaded_entry_partial_counterexample :
    (lookupOp c9Cfg c9St ("GET") ("http://x/1")).2.entries =
      [{ request := none, response := none }] ∧
    (lookupOp c9Cfg c9St ("GET") ("http://x/1")).1 =
      Except.error ("runtime error: nil request in entry") ∧
    ({ request := none, response := none } : Entry).request = none :=
  ⟨rfl, rfl, rfl⟩

/-- Claim C9 (amended): every entry appended after a live call has Request
    and Response present provided the filters preserve presence (as the
    provided header-removal filters do), and every entry loaded from disk
    has them present provided every chunk deserializes to an entry with
    both present (true of files the recorder writes itself); under those
    conditions the whole in-memory list stays fully formed across RoundTrip
    and Lookup.  The loader itself performs no presence check (see the
    counterexample). -/
theorem entries_full_invariant {σ : Type} (cfg : Config σ) (st : RecState σ)
    (req : HttpRequest) (m u : String)
    (hfil : ∀ f ∈ cfg.filters, PresencePreserving f)
    (hu : ∀ c e, cfg.unmarshal c = Except.ok e → EntryFull e)
    (hents : ∀ e ∈ st.entries, EntryFull e) :
    (∀ e ∈ (roundTrip cfg st req).2.entries, EntryFull e) ∧
    (∀ e ∈ (lookupOp cfg st m u).2.entries, EntryFull e) ∧
    (∀ name, PresencePreserving (RemoveRequestHeader name)) ∧
    (∀ name, PresencePreserving (RemoveResponseHeader name)) := by
  refine ⟨roundTrip_full cfg st req hfil hu hents, ?_, ?_, ?_⟩
  · cases hl : st.loaded with
    | true =>
      rw [lookupOp_loaded cfg st m u hl]
      exact hents
    | false =>
      cases hload : loadFromDisk cfg.unmarshal cfg.mode st.disk st.entries with
      | mk es p =>
        have hes : ∀ e ∈ es, EntryFull e := by
          have h1 := loadFromDisk_full cfg.unmarshal cfg.mode st.disk st.entries hu hents
          rw [hload] at h1
          exact h1
        cases p with
        | some mm =>
          rw [lookupOp_not_loaded_err cfg st m u es mm hl hload]
          exact hes
        | none =>
          rw [lookupOp_not_loaded_ok cfg st m u es hl hload]
          exact hes
  · intro name e he
    obtain ⟨h1, h2⟩ := he
    constructor
    · cases hx : e.request with
      | none => rw [hx] at h1; exact absurd h1 (by simp)
      | some rr => simp [RemoveRequestHeader, hx]
    · exact h2
  · intro name e he
    obtain ⟨h1, h2⟩ := he
    refine ⟨h1, ?_⟩
    cases hx : e.response with
    | none => rw [hx] at h2; exact absurd h2 (by simp)
    | some rr => simp [RemoveResponseHeader, hx]

theorem entries_full_invariant_witness : EntryFull wEntry :=
  (entries_full_invariant (wCfg ReplayOnly) wStateE wReq ("GET") ("http://x/1")
    (fun f hf => (List.not_mem_nil f hf).elim)
    (fun c e h => absurd h (by simp [wCfg]))
    (by decide)).1 wEntry (by decide)

/-- Claim C10 counterexample: "no partial best-effort list is produced for
    subsequent lookups" fails on the code.  The backing file holds one
    well-formed document followed by one malformed document; the loader
    appends the entry parsed from the first chunk before panicking on the
    second, and `sync.Once` is spent by the panicking run, so the partial
    list stays on the instance: the failed Lookup leaves `[wEntry]` in
    memory with the once-guard done, and a subsequent Lookup (after the
    caller recovers the panic) is silently served from that partial list. -/
theorem partial_load_counterexample :
    (lookupOp c10Cfg c10St ("GET") ("http://x/1")).1 =
      Except.error (("unmarshal session: ") ++ ("yaml: unmarshal errors")) ∧
    (lookupOp c10Cfg c10St ("GET") ("http://x/1")).2.entries = [wEntry] ∧
    (lookupOp c10Cfg c10St ("GET") ("http://x/1")).2.loaded = true ∧
    (lookupOp c10Cfg (lookupOp c10Cfg c10St ("GET") ("http://x/1")).2
        ("GET") ("http://x/1")).1 = Except.ok (some wEntry) :=
  ⟨rfl, rfl, rfl, rfl⟩

/-- Claim C10 (amended): when some chunk of the backing file fails to
    deserialize, the one-time load fails as a whole with a fatal error: no
    successful load result is produced, the malformed chunk is never
    silently skipped, RoundTrip panics before invoking the transport, and
    Lookup surfaces the same failure.  However, the entries parsed from the
    chunks preceding the first malformed one have already been appended to
    the in-memory list and the once-guard is spent, so a caller that
    recovers from the panic finds subsequent Lookups served from that
    partial prefix list without any reload. -/
theorem malformed_chunk_fails_load {σ : Type} (cfg : Config σ) (st : RecState σ)
    (req : HttpRequest) (m u content c msg : String)
    (hmode : ¬ cfg.mode = Passthrough) (hmlt : cfg.mode ≤ Passthrough)
    (hl : st.loaded = false) (hdisk : st.disk = some content)
    (hc : c ∈ splitMarker content)
    (huc : cfg.unmarshal c = Except.error msg) :
    (roundTrip cfg st req).2.entries =
      st.entries ++ (parseChunks cfg.unmarshal (splitMarker content)).1 ∧
    (roundTrip cfg st req).2.loaded = true ∧
    (roundTrip cfg st req).2.liveCalls = st.liveCalls ∧
    (∃ m2,
      loadFromDisk cfg.unmarshal cfg.mode st.disk st.entries =
        (st.entries ++ (parseChunks cfg.unmarshal (splitMarker content)).1, some m2) ∧
      (roundTrip cfg st req).1 = RTResult.panic m2 ∧
      (lookupOp cfg st m u).1 = Except.error m2) ∧
    (lookupOp cfg st m u).2.entries =
      st.entries ++ (parseChunks cfg.unmarshal (splitMarker content)).1 ∧
    lookupOp cfg (roundTrip cfg st req).2 m u =
      (lookupEntries m u
        (st.entries ++ (parseChunks cfg.unmarshal (splitMarker content)).1),
       (roundTrip cfg st req).2) := by
  obtain ⟨m2, hm2⟩ := parseChunks_error cfg.unmarshal (splitMarker content) c msg hc huc
  have hload : loadFromDisk cfg.unmarshal cfg.mode st.disk st.entries =
      (st.entries ++ (parseChunks cfg.unmarshal (splitMarker content)).1, some m2) := by
    rw [hdisk, loadFromDisk_some cfg.unmarshal cfg.mode content st.entries hmode, hm2]
  have hp : ¬ Passthrough < cfg.mode := not_lt.mpr hmlt
  have hrt := roundTrip_not_loaded_err cfg st req
    (st.entries ++ (parseChunks cfg.unmarshal (splitMarker content)).1) m2 hp hl hload
  have hlk := lookupOp_not_loaded_err cfg st m u
    (st.entries ++ (parseChunks cfg.unmarshal (splitMarker content)).1) m2 hl hload
  refine ⟨by rw [hrt], by rw [hrt], by rw [hrt],
    ⟨m2, hload, by rw [hrt], by rw [hlk]⟩, by rw [hlk], ?_⟩
  rw [hrt]
  exact lookupOp_loaded cfg
    { st with
      entries := st.entries ++ (parseChunks cfg.unmarshal (splitMarker content)).1
      loaded := true } m u rfl

theorem malformed_chunk_fails_load_witness :
    (roundTrip c10Cfg c10St wReq).2.entries =
      c10St.entries ++ (parseChunks c10Cfg.unmarshal (splitMarker ("good\n---\nbad"))).1 :=
  (malformed_chunk_fails_load c10Cfg c10St wReq ("GET") ("http://x/1")
    ("good\n---\nbad") ("bad") ("yaml: unmarshal errors")
    (by decide) (by decide) rfl rfl (by decide) rfl).1

end Recorder
